import Mathlib

/-!
Verification of the hydration-node bonds core and referrals registration.

The referrals pallet (`pallets/referrals/src/lib.rs`) is embedded directly
from its source. The bonds engine itself ships only its benchmark file
(`pallets/bonds/src/benchmarks.rs`) in this tree, so the `issue`, `redeem`
and `unlock` operations are modelled from the specification; wherever the
benchmark's own assertions pin down behaviour (the non-strict maturity
comparison in `issue`), the benchmark is taken as authoritative.

Storage maps are embedded as association lists with first-match lookup.
-/

set_option maxRecDepth 4096

/-- First-match lookup in an association list, the embedding of a
key/value storage map read. -/
def Store.get {K V : Type} [DecidableEq K] : List (K × V) → K → Option V
  | [], _ => none
  | (k, v) :: rest, k' => if k' = k then some v else Store.get rest k'

/-- Storage delete: removes every binding of the key. -/
def Store.del {K V : Type} [DecidableEq K] : List (K × V) → K → List (K × V)
  | [], _ => []
  | (a, b) :: rest, k =>
      if a = k then Store.del rest k else (a, b) :: Store.del rest k

/-- Storage write: the new binding replaces any previous binding of the
same key. -/
def Store.put {K V : Type} [DecidableEq K] (m : List (K × V)) (k : K) (v : V) :
    List (K × V) :=
  (k, v) :: Store.del m k

/-- In-place update of the value bound to one key, leaving every other
entry untouched (the embedding of a field-level storage mutation). -/
def Store.mapAt {K V : Type} [DecidableEq K] :
    List (K × V) → K → (V → V) → List (K × V)
  | [], _, _ => []
  | (a, b) :: rest, k, f =>
      (if a = k then (a, f b) else (a, b)) :: Store.mapAt rest k f

namespace Referrals

/-- Account identifiers, opaque in the pallet (`T::AccountId`). -/
abbrev AccountId := Nat

/-- A referral code as submitted: a byte vector (`Vec<u8>`), each entry a
byte value below 256. -/
abbrev Code := List Nat

/-- `MIN_CODE_LENGTH` from `pallets/referrals/src/lib.rs`. -/
def MIN_CODE_LENGTH : Nat := 3

/-- The pallet configuration: `T::CodeLength`, the maximum referral code
length enforced by the `BoundedVec` conversion. -/
structure Config where
  codeLength : Nat
deriving DecidableEq, Repr

/-- The error enum of the referrals pallet, in source order. -/
inductive Error where
  | TooLong
  | TooShort
  | InvalidCharacter
  | AlreadyExists
deriving DecidableEq, Repr

/-- Events deposited by the pallet. -/
inductive Event where
  | CodeRegistered (code : Code) (account : AccountId)
deriving DecidableEq, Repr

/-- Pallet state: the `ReferralCodes` storage map (code to account) and
the list of deposited events. -/
structure State where
  referralCodes : List (Code × AccountId)
  events : List Event
deriving DecidableEq, Repr

/-- Rust `char::is_alphanumeric` restricted to a single byte cast with
`b as char` (so the byte is read as the Unicode scalar U+0000..U+00FF).
True exactly on the Latin-1 scalars whose Unicode general category is a
letter or a number: the ASCII digits and letters, and in the upper half
U+00AA, U+00B2, U+00B3, U+00B5, U+00B9, U+00BA, U+00BC, U+00BD, U+00BE and
the letters U+00C0..U+00FF minus the two signs U+00D7 and U+00F7. -/
def char_is_alphanumeric (b : Nat) : Bool :=
  decide ((0x30 ≤ b ∧ b ≤ 0x39) ∨ (0x41 ≤ b ∧ b ≤ 0x5A) ∨ (0x61 ≤ b ∧ b ≤ 0x7A)
    ∨ b = 0xAA ∨ b = 0xB2 ∨ b = 0xB3 ∨ b = 0xB5 ∨ b = 0xB9 ∨ b = 0xBA
    ∨ b = 0xBC ∨ b = 0xBD ∨ b = 0xBE
    ∨ (0xC0 ≤ b ∧ b ≤ 0xFF ∧ b ≠ 0xD7 ∧ b ≠ 0xF7))

/-- `register_code` from `pallets/referrals/src/lib.rs`, checks in source
order: the `BoundedVec` conversion (`TooLong` when the vector exceeds
`T::CodeLength`), the minimum length (`TooShort`), the per-byte
`char::is_alphanumeric` test (`InvalidCharacter`), then the
`mutate`-guarded uniqueness check (`AlreadyExists`). On success the code
is stored byte-for-byte as supplied (no case normalisation appears in the
source) and a `CodeRegistered` event is deposited. The `mutate` closure
touches the stored value only after its `ensure!` passes, so every error
path leaves storage as it was; errors therefore return no new state. -/
def register_code (cfg : Config) (s : State) (code : Code)
    (account : AccountId) : Except Error State :=
  if cfg.codeLength < code.length then .error .TooLong
  else if code.length < MIN_CODE_LENGTH then .error .TooShort
  else if ¬ (code.all char_is_alphanumeric = true) then .error .InvalidCharacter
  else match Store.get s.referralCodes code with
    | some _ => .error .AlreadyExists
    | none =>
        .ok { referralCodes := Store.put s.referralCodes code account,
              events := s.events ++ [.CodeRegistered code account] }

/-- The state observed after a `register_code` call: the committed state
on success, the untouched pre-state on any error (dispatch errors revert,
and the source mutates nothing before its checks pass). -/
def register_code_run (cfg : Config) (s : State) (code : Code)
    (account : AccountId) : State :=
  match register_code cfg s code account with
  | .ok s' => s'
  | .error _ => s

/-- A code that could itself have been registered under `cfg`: within the
length bounds and alphanumeric under the byte-as-char test. -/
def ValidCode (cfg : Config) (code : Code) : Prop :=
  code.length ≤ cfg.codeLength ∧ MIN_CODE_LENGTH ≤ code.length ∧
    code.all char_is_alphanumeric = true

instance (cfg : Config) (code : Code) : Decidable (ValidCode cfg code) := by
  unfold ValidCode; infer_instance

/-- States whose stored codes all passed registration: the invariant the
pallet maintains, since `register_code` is its only storage writer. -/
def ValidState (cfg : Config) (s : State) : Prop :=
  ∀ p ∈ s.referralCodes, ValidCode cfg p.1

instance (cfg : Config) (s : State) : Decidable (ValidState cfg s) := by
  unfold ValidState; infer_instance

end Referrals

namespace Bonds

/-- Milliseconds, the clock's unit. -/
abbrev Moment := Nat

/-- Fixed-precision integer balances (non-negative per the spec). -/
abbrev Balance := Nat

/-- Modelled from the spec: deployment configuration. `MinMaturity` is the
minimum lock window; `ProtocolFeeRate` is a rational `feeNum / feeDen` in
`[0,1]`; `escrow` and `feeSink` are the engine-controlled holding account
and the protocol fee sink, distinguished ledger accounts. -/
structure Config where
  minMaturity : Moment
  feeNum : Nat
  feeDen : Nat
  escrow : Nat
  feeSink : Nat
deriving DecidableEq, Repr

/-- A well-formed configuration: the fee rate is a genuine rational in
`[0,1]`. -/
def Config.Wf (cfg : Config) : Prop :=
  0 < cfg.feeDen ∧ cfg.feeNum ≤ cfg.feeDen

instance (cfg : Config) : Decidable cfg.Wf := by
  unfold Config.Wf; infer_instance

/-- The error taxonomy of the spec (section 7), plus `ZeroAmount` for the
`amount > 0` issuance precondition, for which the spec names no code. -/
inductive Error where
  | InsufficientBalance
  | InvalidMaturity
  | ZeroAmount
  | UnknownBond
  | NotMatured
  | InsufficientBondBalance
  | Unauthorized
deriving DecidableEq, Repr

/-- The Bond record of the spec's data model: the escrowed asset, the
remaining redeemable principal, and the maturity timestamp. The `bond_id`
is the registry key. -/
structure Bond where
  underlying_asset : Nat
  amount : Balance
  maturity : Moment
deriving DecidableEq, Repr

/-- Modelled from the spec: the whole persistent state. `bonds` is the
Bond Registry; `owners` records each bond's claim holder (the spec's
claim *is* the registry entry, credited in full to the issuer); `balances`
is the fungible-asset ledger keyed by (asset, account); `nextBondId` is
the sequential identifier counter. -/
structure State where
  bonds : List (Nat × Bond)
  owners : List (Nat × Nat)
  balances : List ((Nat × Nat) × Balance)
  nextBondId : Nat
deriving DecidableEq, Repr

/-- Ledger balance of an account in one asset (absent entries hold 0). -/
def getBalance (s : State) (asset acct : Nat) : Balance :=
  (Store.get s.balances (asset, acct)).getD 0

/-- The Asset Ledger's `transfer(asset, src, dst, amt)`: fails with
`InsufficientBalance` when the source cannot cover the amount, otherwise
debits the source then credits the destination; it never overdraws. -/
def transfer (s : State) (asset src dst : Nat) (amt : Balance) :
    Except Error State :=
  if getBalance s asset src < amt then .error .InsufficientBalance
  else
    let b1 := Store.put s.balances (asset, src) (getBalance s asset src - amt)
    let s1 : State := { s with balances := b1 }
    .ok { s1 with
      balances := Store.put b1 (asset, dst) (getBalance s1 asset dst + amt) }

/-- The protocol fee on a redeemed amount:
`ceil(amount * feeNum / feeDen)`, the `mul_ceil` of the benchmark,
computed by ceiling division so the protocol never under-collects. -/
def protocol_fee (cfg : Config) (amount : Balance) : Balance :=
  (amount * cfg.feeNum + (cfg.feeDen - 1)) / cfg.feeDen

/-- Modelled from the spec: `issue(caller, asset, amount, maturity)` of
the Bond Issuance Engine (the pallet's implementation file is not in this
tree). Checks the maturity window, then `amount > 0`, then escrows the
collateral, allocates a fresh `bond_id`, records the bond and the
caller's claim, and returns the `bond_id`. The maturity comparison is
non-strict (`maturity >= now + MinMaturity` succeeds): the `issue`
benchmark in `pallets/bonds/src/benchmarks.rs` calls it with
`maturity = NOW + MinMaturity` and asserts success, which overrides the
spec's strict inequality. -/
def issue (cfg : Config) (now : Moment) (s : State)
    (caller asset : Nat) (amount : Balance) (maturity : Moment) :
    Except Error (Nat × State) :=
  if maturity < now + cfg.minMaturity then .error .InvalidMaturity
  else if amount = 0 then .error .ZeroAmount
  else
    match transfer s asset caller cfg.escrow amount with
    | .error e => .error e
    | .ok s1 =>
        let bid := s1.nextBondId
        .ok (bid,
          { s1 with
            bonds := Store.put s1.bonds bid ⟨asset, amount, maturity⟩,
            owners := Store.put s1.owners bid caller,
            nextBondId := bid + 1 })

/-- Modelled from the spec: `redeem(caller, bond_id, requested)` of the
Bond Redemption Engine (implementation file not in this tree). Checks in
the spec's order: existence (`UnknownBond`), maturity (`NotMatured`),
`0 < requested <= bond.amount` (`InsufficientBondBalance`), the caller's
claim (`Unauthorized`); then takes the ceiling fee on the requested
amount, pays the caller the net, pays the sink the fee, and shrinks the
registry entry, deleting it when the remainder is zero. Returns the net
payout. -/
def redeem (cfg : Config) (now : Moment) (s : State)
    (caller bond_id : Nat) (requested : Balance) :
    Except Error (Balance × State) :=
  match Store.get s.bonds bond_id with
  | none => .error .UnknownBond
  | some bond =>
    if now < bond.maturity then .error .NotMatured
    else if requested = 0 ∨ bond.amount < requested then
      .error .InsufficientBondBalance
    else if ¬ Store.get s.owners bond_id = some caller then .error .Unauthorized
    else
      let fee := protocol_fee cfg requested
      let net := requested - fee
      match transfer s bond.underlying_asset cfg.escrow caller net with
      | .error e => .error e
      | .ok s1 =>
        match transfer s1 bond.underlying_asset cfg.escrow cfg.feeSink fee with
        | .error e => .error e
        | .ok s2 =>
          if bond.amount - requested = 0 then
            .ok (net, { s2 with bonds := Store.del s2.bonds bond_id,
                                owners := Store.del s2.owners bond_id })
          else
            .ok (net, { s2 with bonds := Store.put s2.bonds bond_id
                                  { bond with amount := bond.amount - requested } })

/-- Modelled from the spec: `unlock(bond_id)` of the Administrative
Unlock Controller (implementation file not in this tree; the privilege
check is resolved by the external authentication collaborator before this
is reached). Checks existence, then rewrites the bond's maturity to the
current time; nothing else changes and no asset moves. -/
def unlock (s : State) (now : Moment) (bond_id : Nat) : Except Error State :=
  match Store.get s.bonds bond_id with
  | none => .error .UnknownBond
  | some _ =>
      .ok { s with bonds := Store.mapAt s.bonds bond_id
                              (fun b => { b with maturity := now }) }

/-- The state observed after a `redeem` call: the committed state on
success, the untouched pre-state on any error (each call is an atomic
transaction: validate-then-commit). -/
def redeem_run (cfg : Config) (now : Moment) (s : State)
    (caller bond_id : Nat) (requested : Balance) : State :=
  match redeem cfg now s caller bond_id requested with
  | .ok (_, s') => s'
  | .error _ => s

/-- The registry invariant of the spec's data model: every stored bond
has strictly positive remaining principal. -/
def AmountsPositive (s : State) : Prop :=
  ∀ bond_id b, Store.get s.bonds bond_id = some b → 0 < b.amount

end Bonds

/-! Concrete fixtures used by witnesses and counterexamples. -/

/-- A referrals configuration with maximum code length 10. -/
def rcfg : Referrals.Config := ⟨10⟩

/-- The empty referrals state. -/
def rs0 : Referrals.State := ⟨[], []⟩

/-- The referrals state after registering the code "abc" to account 5. -/
def rsAbc : Referrals.State :=
  Referrals.register_code_run rcfg rs0 [97, 98, 99] 5

/-- A bonds configuration: minimum lock 1000 ms, 1% protocol fee, escrow
account 1000, fee sink 1001. -/
def bcfg : Bonds.Config := ⟨1000, 1, 100, 1000, 1001⟩

/-- A bonds state holding one bond (id 0, asset 7, amount 100, maturity
50) owned by account 5, with the escrow funded to cover it. -/
def bst : Bonds.State := ⟨[(0, ⟨7, 100, 50⟩)], [(0, 5)], [((7, 1000), 100)], 1⟩

/-- A bonds state with no bonds and account 5 holding 100 of asset 7. -/
def bstEmpty : Bonds.State := ⟨[], [], [((7, 5), 100)], 0⟩

/-- The state after account 5 redeems the whole of bond 0 from `bst` at
time 50: bond deleted, 99 paid out, fee 1 collected. -/
def bstAfterRedeem : Bonds.State :=
  ⟨[], [], [((7, 1001), 1), ((7, 1000), 0), ((7, 5), 99)], 1⟩

/-- The state after account 5 issues 100 of asset 7 at time 0 with
maturity 1000 from `bstEmpty`. -/
def bstAfterIssue : Bonds.State :=
  ⟨[(0, ⟨7, 100, 1000⟩)], [(0, 5)], [((7, 1000), 100), ((7, 5), 0)], 1⟩

/-- The state after an administrative unlock of bond 0 in `bst` at
time 60. -/
def bstAfterUnlock : Bonds.State :=
  ⟨[(0, ⟨7, 100, 60⟩)], [(0, 5)], [((7, 1000), 100)], 1⟩

/-- The bond stored in `bst` under id 0. -/
def bond0 : Bonds.Bond := ⟨7, 100, 50⟩

/-- The referrals state after registering "abc" to 5 and then "ABC" to 9:
both case variants live side by side. -/
def rsUpper : Referrals.State :=
  Referrals.register_code_run rcfg rsAbc [65, 66, 67] 9

/-- The referrals state after registering the three-byte code
`[0xB5, 0xB5, 0xB5]` (micro signs) to account 7. -/
def rsMicro : Referrals.State :=
  Referrals.register_code_run rcfg rs0 [181, 181, 181] 7

namespace Store

variable {K V : Type} [DecidableEq K]

theorem get_put_self (m : List (K × V)) (k : K) (v : V) :
    get (put m k v) k = some v := by
  simp [get, put]

theorem get_del_self (m : List (K × V)) (k : K) : get (del m k) k = none := by
  induction m with
  | nil => rfl
  | cons p rest ih =>
      obtain ⟨a, b⟩ := p
      by_cases hp : a = k
      · simpa [del, hp] using ih
      · have hne : k ≠ a := fun hh => hp hh.symm
        simpa [del, get, hp, hne] using ih

theorem get_del_ne (m : List (K × V)) (k k' : K) (h : k' ≠ k) :
    get (del m k) k' = get m k' := by
  induction m with
  | nil => rfl
  | cons p rest ih =>
      obtain ⟨a, b⟩ := p
      by_cases hp : a = k
      · have hne : k' ≠ a := by rw [hp]; exact h
        simpa [del, get, hp, h, hne] using ih
      · by_cases hk' : k' = a
        · simp [del, get, hp, hk']
        · simpa [del, get, hp, hk'] using ih

theorem get_put_ne (m : List (K × V)) (k k' : K) (v : V) (h : k' ≠ k) :
    get (put m k v) k' = get m k' := by
  simp [put, get, h, get_del_ne m k k' h]

theorem get_mapAt_self (m : List (K × V)) (k : K) (f : V → V) :
    get (mapAt m k f) k = (get m k).map f := by
  induction m with
  | nil => rfl
  | cons p rest ih =>
      obtain ⟨a, b⟩ := p
      simp only [mapAt]
      by_cases hp : a = k
      · subst hp
        rw [if_pos rfl]
        simp [get]
      · rw [if_neg hp]
        have hne : k ≠ a := fun hh => hp hh.symm
        simp [get, hne, ih]

theorem get_some_mem {m : List (K × V)} {k : K} {v : V}
    (h : get m k = some v) : (k, v) ∈ m := by
  induction m with
  | nil => cases h
  | cons p rest ih =>
      obtain ⟨a, b⟩ := p
      by_cases hk : k = a
      · subst hk
        simp only [get, if_true, eq_self_iff_true, Option.some.injEq] at h
        subst h
        exact List.mem_cons_self _ _
      · simp only [get, if_neg hk] at h
        exact List.mem_cons_of_mem _ (ih h)

theorem mem_del {m : List (K × V)} {k : K} {p : K × V}
    (h : p ∈ del m k) : p ∈ m := by
  induction m with
  | nil => cases h
  | cons q rest ih =>
      obtain ⟨a, b⟩ := q
      by_cases ha : a = k
      · rw [del, if_pos ha] at h
        exact List.mem_cons_of_mem _ (ih h)
      · rw [del, if_neg ha] at h
        rcases List.mem_cons.mp h with h1 | h2
        · exact h1 ▸ List.mem_cons_self _ _
        · exact List.mem_cons_of_mem _ (ih h2)

theorem get_mapAt_ne (m : List (K × V)) (k k' : K) (f : V → V) (h : k' ≠ k) :
    get (mapAt m k f) k' = get m k' := by
  induction m with
  | nil => rfl
  | cons p rest ih =>
      obtain ⟨a, b⟩ := p
      simp only [mapAt]
      by_cases hp : a = k
      · subst hp
        rw [if_pos rfl]
        simp [get, h, ih]
      · rw [if_neg hp]
        by_cases hk' : k' = a
        · simp [get, hk']
        · simp [get, hk', ih]

end Store

namespace Bonds

theorem transfer_ok_inv {s : State} {asset src dst : Nat} {amt : Balance}
    {s' : State} (h : transfer s asset src dst amt = .ok s') :
    amt ≤ getBalance s asset src ∧
    s'.bonds = s.bonds ∧ s'.owners = s.owners ∧
    s'.nextBondId = s.nextBondId ∧
    s'.balances = Store.put
      (Store.put s.balances (asset, src) (getBalance s asset src - amt))
      (asset, dst)
      (getBalance
        { s with
          balances := Store.put s.balances (asset, src)
            (getBalance s asset src - amt) }
        asset dst + amt) := by
  unfold transfer at h
  by_cases hlt : getBalance s asset src < amt
  · rw [if_pos hlt] at h
    cases h
  · rw [if_neg hlt] at h
    simp only [Except.ok.injEq] at h
    subst h
    exact ⟨Nat.le_of_not_lt hlt, rfl, rfl, rfl, rfl⟩

theorem transfer_ok_balances {s : State} {asset src dst : Nat} {amt : Balance}
    {s' : State} (h : transfer s asset src dst amt = .ok s')
    (hne : src ≠ dst) :
    getBalance s' asset dst = getBalance s asset dst + amt ∧
    getBalance s' asset src = getBalance s asset src - amt ∧
    ∀ a x, (a, x) ≠ (asset, src) → (a, x) ≠ (asset, dst) →
      getBalance s' a x = getBalance s a x := by
  obtain ⟨hle, _, _, _, hbal⟩ := transfer_ok_inv h
  have hdssrc : (asset, dst) ≠ ((asset, src) : Nat × Nat) := by
    intro hh
    injection hh with _ h2
    exact hne h2.symm
  refine ⟨?_, ?_, ?_⟩
  · unfold getBalance
    rw [hbal, Store.get_put_self]
    unfold getBalance
    rw [Store.get_put_ne _ _ _ _ hdssrc]
    rfl
  · have hsd : (asset, src) ≠ ((asset, dst) : Nat × Nat) := fun hh => hdssrc hh.symm
    unfold getBalance
    rw [hbal, Store.get_put_ne _ _ _ _ hsd, Store.get_put_self]
    rfl
  · intro a x hxs hxd
    unfold getBalance
    rw [hbal, Store.get_put_ne _ _ _ _ hxd, Store.get_put_ne _ _ _ _ hxs]

theorem issue_ok_inv {cfg : Config} {now : Moment} {s : State}
    {caller asset : Nat} {amount : Balance} {maturity : Moment}
    {bid : Nat} {s' : State}
    (h : issue cfg now s caller asset amount maturity = .ok (bid, s')) :
    now + cfg.minMaturity ≤ maturity ∧ amount ≠ 0 ∧
    ∃ s1, transfer s asset caller cfg.escrow amount = .ok s1 ∧
      bid = s1.nextBondId ∧
      s' = { s1 with
        bonds := Store.put s1.bonds bid ⟨asset, amount, maturity⟩,
        owners := Store.put s1.owners bid caller,
        nextBondId := bid + 1 } := by
  unfold issue at h
  by_cases h1 : maturity < now + cfg.minMaturity
  · rw [if_pos h1] at h
    cases h
  · rw [if_neg h1] at h
    by_cases h2 : amount = 0
    · rw [if_pos h2] at h
      cases h
    · rw [if_neg h2] at h
      cases ht : transfer s asset caller cfg.escrow amount with
      | error e =>
          rw [ht] at h
          cases h
      | ok s1 =>
          rw [ht] at h
          simp only [Except.ok.injEq, Prod.mk.injEq] at h
          obtain ⟨hbid, hs⟩ := h
          subst hbid
          exact ⟨Nat.le_of_not_lt h1, h2, s1, rfl, rfl, hs.symm⟩

theorem redeem_ok_inv {cfg : Config} {now : Moment} {s : State}
    {caller bond_id : Nat} {requested net : Balance} {s' : State}
    (h : redeem cfg now s caller bond_id requested = .ok (net, s')) :
    ∃ bond s1 s2,
      Store.get s.bonds bond_id = some bond ∧
      bond.maturity ≤ now ∧ 0 < requested ∧ requested ≤ bond.amount ∧
      Store.get s.owners bond_id = some caller ∧
      net = requested - protocol_fee cfg requested ∧
      transfer s bond.underlying_asset cfg.escrow caller
        (requested - protocol_fee cfg requested) = .ok s1 ∧
      transfer s1 bond.underlying_asset cfg.escrow cfg.feeSink
        (protocol_fee cfg requested) = .ok s2 ∧
      ((bond.amount = requested ∧
          s' = { s2 with bonds := Store.del s2.bonds bond_id,
                         owners := Store.del s2.owners bond_id }) ∨
        (requested < bond.amount ∧
          s' = { s2 with bonds := Store.put s2.bonds bond_id
                           { bond with amount := bond.amount - requested } })) := by
  unfold redeem at h
  cases hb : Store.get s.bonds bond_id with
  | none =>
      rw [hb] at h
      cases h
  | some bond =>
      rw [hb] at h
      simp only at h
      by_cases h1 : now < bond.maturity
      · rw [if_pos h1] at h
        cases h
      · rw [if_neg h1] at h
        by_cases h2 : requested = 0 ∨ bond.amount < requested
        · rw [if_pos h2] at h
          cases h
        · rw [if_neg h2] at h
          push_neg at h2
          obtain ⟨hr0, hrle⟩ := h2
          by_cases h3 : ¬ Store.get s.owners bond_id = some caller
          · rw [if_pos h3] at h
            cases h
          · rw [if_neg h3] at h
            push_neg at h3
            cases ht1 : transfer s bond.underlying_asset cfg.escrow caller
                (requested - protocol_fee cfg requested) with
            | error e =>
                rw [ht1] at h
                simp only at h
                cases h
            | ok s1 =>
                rw [ht1] at h
                simp only at h
                cases ht2 : transfer s1 bond.underlying_asset cfg.escrow
                    cfg.feeSink (protocol_fee cfg requested) with
                | error e =>
                    rw [ht2] at h
                    simp only at h
                    cases h
                | ok s2 =>
                    rw [ht2] at h
                    simp only at h
                    by_cases h4 : bond.amount - requested = 0
                    · rw [if_pos h4] at h
                      simp only [Except.ok.injEq, Prod.mk.injEq] at h
                      refine ⟨bond, s1, s2, rfl, Nat.le_of_not_lt h1,
                        Nat.pos_of_ne_zero hr0, hrle, h3, h.1.symm, ht1, ht2,
                        Or.inl ⟨Nat.le_antisymm (Nat.le_of_sub_eq_zero h4) hrle,
                          h.2.symm⟩⟩
                    · rw [if_neg h4] at h
                      simp only [Except.ok.injEq, Prod.mk.injEq] at h
                      refine ⟨bond, s1, s2, rfl, Nat.le_of_not_lt h1,
                        Nat.pos_of_ne_zero hr0, hrle, h3, h.1.symm, ht1, ht2,
                        Or.inr ⟨?_, h.2.symm⟩⟩
                      exact Nat.lt_of_le_of_ne hrle
                        (fun hh => h4 (by rw [hh, Nat.sub_self]))

theorem transfer_error_inv {s : State} {asset src dst : Nat} {amt : Balance}
    {e : Error} (h : transfer s asset src dst amt = .error e) :
    e = .InsufficientBalance := by
  unfold transfer at h
  by_cases hlt : getBalance s asset src < amt
  · rw [if_pos hlt] at h
    injection h with h
    exact h.symm
  · rw [if_neg hlt] at h
    cases h

theorem unlock_ok_inv {s : State} {now : Moment} {bond_id : Nat} {s' : State}
    (h : unlock s now bond_id = .ok s') :
    ∃ b, Store.get s.bonds bond_id = some b ∧
      s' = { s with bonds := Store.mapAt s.bonds bond_id
                      (fun x => { x with maturity := now }) } := by
  unfold unlock at h
  cases hb : Store.get s.bonds bond_id with
  | none =>
      rw [hb] at h
      cases h
  | some b =>
      rw [hb] at h
      simp only [Except.ok.injEq] at h
      exact ⟨b, rfl, h.symm⟩

end Bonds

namespace Referrals

theorem register_code_ok_inv {cfg : Config} {s : State} {code : Code}
    {account : AccountId} {s' : State}
    (h : register_code cfg s code account = .ok s') :
    code.length ≤ cfg.codeLength ∧ MIN_CODE_LENGTH ≤ code.length ∧
    code.all char_is_alphanumeric = true ∧
    Store.get s.referralCodes code = none ∧
    s' = { referralCodes := Store.put s.referralCodes code account,
           events := s.events ++ [.CodeRegistered code account] } := by
  unfold register_code at h
  by_cases h1 : cfg.codeLength < code.length
  · rw [if_pos h1] at h
    cases h
  · rw [if_neg h1] at h
    by_cases h2 : code.length < MIN_CODE_LENGTH
    · rw [if_pos h2] at h
      cases h
    · rw [if_neg h2] at h
      by_cases h3 : ¬ (code.all char_is_alphanumeric = true)
      · rw [if_pos h3] at h
        cases h
      · rw [if_neg h3] at h
        cases hl : Store.get s.referralCodes code with
        | some v =>
            rw [hl] at h
            cases h
        | none =>
            rw [hl] at h
            simp only [Except.ok.injEq] at h
            exact ⟨Nat.le_of_not_lt h1, Nat.le_of_not_lt h2,
              not_not.mp h3, rfl, h.symm⟩

end Referrals

/-- C6: referral-code registration is uniqueness-checked. In every state
whose stored codes themselves passed registration, `register_code` fails
with `AlreadyExists` exactly when the submitted code is already mapped to
some account; on that failure the observed state is the unchanged
pre-state, and on success the code maps to the supplied account (and the
state stays valid). -/
theorem C6_register_code_unique (cfg : Referrals.Config)
    (s : Referrals.State) (code : Referrals.Code)
    (account : Referrals.AccountId) (hs : Referrals.ValidState cfg s) :
    (Referrals.register_code cfg s code account =
        .error .AlreadyExists ↔
      (Store.get s.referralCodes code).isSome = true) ∧
    (Referrals.register_code cfg s code account = .error .AlreadyExists →
      Referrals.register_code_run cfg s code account = s) ∧
    (∀ s', Referrals.register_code cfg s code account = .ok s' →
      Store.get s'.referralCodes code = some account ∧
      Referrals.ValidState cfg s') := by
  refine ⟨⟨?_, ?_⟩, ?_, ?_⟩
  · intro h
    unfold Referrals.register_code at h
    by_cases h1 : cfg.codeLength < code.length
    · rw [if_pos h1] at h
      simp at h
    · rw [if_neg h1] at h
      by_cases h2 : code.length < Referrals.MIN_CODE_LENGTH
      · rw [if_pos h2] at h
        simp at h
      · rw [if_neg h2] at h
        by_cases h3 : ¬ (code.all Referrals.char_is_alphanumeric = true)
        · rw [if_pos h3] at h
          simp at h
        · rw [if_neg h3] at h
          cases hl : Store.get s.referralCodes code with
          | some v => rfl
          | none =>
              rw [hl] at h
              cases h
  · intro h
    cases hl : Store.get s.referralCodes code with
    | none =>
        rw [hl] at h
        cases h
    | some v =>
        obtain ⟨hlen, hmin, halnum⟩ := hs (code, v) (Store.get_some_mem hl)
        unfold Referrals.register_code
        rw [if_neg (Nat.not_lt.mpr hlen), if_neg (Nat.not_lt.mpr hmin),
          if_neg (not_not_intro halnum), hl]
  · intro h
    unfold Referrals.register_code_run
    rw [h]
  · intro s' h
    obtain ⟨hlen, hmin, halnum, hnone, hs'⟩ := Referrals.register_code_ok_inv h
    subst hs'
    refine ⟨Store.get_put_self _ _ _, ?_⟩
    intro p hp
    rcases List.mem_cons.mp hp with h1 | h2
    · rw [h1]
      exact ⟨hlen, hmin, halnum⟩
    · exact hs p (Store.mem_del h2)

/-- C6 witness: registering the already-taken code "abc" on the state
where "abc" maps to account 5. -/
theorem C6_register_code_unique_witness :
    (Referrals.register_code rcfg rsAbc [97, 98, 99] 9 =
        .error .AlreadyExists ↔
      (Store.get rsAbc.referralCodes [97, 98, 99]).isSome = true) ∧
    (Referrals.register_code rcfg rsAbc [97, 98, 99] 9 =
        .error .AlreadyExists →
      Referrals.register_code_run rcfg rsAbc [97, 98, 99] 9 = rsAbc) ∧
    (∀ s', Referrals.register_code rcfg rsAbc [97, 98, 99] 9 = .ok s' →
      Store.get s'.referralCodes [97, 98, 99] = some 9 ∧
      Referrals.ValidState rcfg s') :=
  C6_register_code_unique rcfg rsAbc [97, 98, 99] 9 (by decide)

/-- C7: every failure path of `register_code` leaves the state (storage
and deposited events alike) unchanged, and the `CodeRegistered` event
plus the storage write happen exactly on the success path. -/
theorem C7_validate_then_commit (cfg : Referrals.Config)
    (s : Referrals.State) (code : Referrals.Code)
    (account : Referrals.AccountId) :
    (∀ e, Referrals.register_code cfg s code account = .error e →
      Referrals.register_code_run cfg s code account = s) ∧
    (∀ s', Referrals.register_code cfg s code account = .ok s' →
      s'.referralCodes = Store.put s.referralCodes code account ∧
      s'.events = s.events ++ [.CodeRegistered code account]) := by
  constructor
  · intro e h
    unfold Referrals.register_code_run
    rw [h]
  · intro s' h
    obtain ⟨_, _, _, _, hs'⟩ := Referrals.register_code_ok_inv h
    subst hs'
    exact ⟨rfl, rfl⟩

/-- C7 witness: the duplicate-code failure on `rsAbc` leaves the state
unchanged. -/
theorem C7_validate_then_commit_witness :
    Referrals.register_code_run rcfg rsAbc [97, 98, 99] 9 = rsAbc :=
  (C7_validate_then_commit rcfg rsAbc [97, 98, 99] 9).1
    Referrals.Error.AlreadyExists (by rfl)

/-- C8: `register_code` checks its errors in source order, `TooLong`,
then `TooShort`, then `InvalidCharacter`, then `AlreadyExists`; in
particular the 2-byte code `[0x20, 0x61]`, whose first byte fails the
alphanumeric test, is rejected as `TooShort`, not `InvalidCharacter`. -/
theorem C8_register_code_error_order (cfg : Referrals.Config)
    (s : Referrals.State) (code : Referrals.Code)
    (account : Referrals.AccountId) :
    (cfg.codeLength < code.length →
      Referrals.register_code cfg s code account = .error .TooLong) ∧
    (code.length ≤ cfg.codeLength →
      code.length < Referrals.MIN_CODE_LENGTH →
      Referrals.register_code cfg s code account = .error .TooShort) ∧
    (code.length ≤ cfg.codeLength →
      Referrals.MIN_CODE_LENGTH ≤ code.length →
      ¬ (code.all Referrals.char_is_alphanumeric = true) →
      Referrals.register_code cfg s code account =
        .error .InvalidCharacter) ∧
    (Referrals.ValidCode cfg code →
      (Store.get s.referralCodes code).isSome = true →
      Referrals.register_code cfg s code account =
        .error .AlreadyExists) ∧
    (Referrals.register_code rcfg rs0 [32, 97] 0 = .error .TooShort ∧
      Referrals.char_is_alphanumeric 32 = false) := by
  refine ⟨?_, ?_, ?_, ?_, by rfl, by rfl⟩
  · intro h1
    unfold Referrals.register_code
    rw [if_pos h1]
  · intro h1 h2
    unfold Referrals.register_code
    rw [if_neg (Nat.not_lt.mpr h1), if_pos h2]
  · intro h1 h2 h3
    unfold Referrals.register_code
    rw [if_neg (Nat.not_lt.mpr h1), if_neg (Nat.not_lt.mpr h2), if_pos h3]
  · intro hv hsome
    obtain ⟨hlen, hmin, halnum⟩ := hv
    cases hl : Store.get s.referralCodes code with
    | none => rw [hl] at hsome; cases hsome
    | some v =>
        unfold Referrals.register_code
        rw [if_neg (Nat.not_lt.mpr hlen), if_neg (Nat.not_lt.mpr hmin),
          if_neg (not_not_intro halnum), hl]

/-- C8 witness: an 11-byte code on a 10-byte limit fails `TooLong`. -/
theorem C8_register_code_error_order_witness :
    Referrals.register_code rcfg rs0
      [48, 49, 50, 51, 52, 53, 54, 55, 56, 57, 48] 0 = .error .TooLong :=
  (C8_register_code_error_order rcfg rs0
    [48, 49, 50, 51, 52, 53, 54, 55, 56, 57, 48] 0).1 (by decide)

/-- C9: `register_code` performs no case normalisation: a registered code
is stored byte-for-byte as supplied, so "abc" (bytes 97 98 99) and "ABC"
(bytes 65 66 67) are distinct keys and both register successfully. -/
theorem C9_no_case_normalization :
    (∀ (cfg : Referrals.Config) (s : Referrals.State)
        (code : Referrals.Code) (account : Referrals.AccountId)
        (s' : Referrals.State),
      Referrals.register_code cfg s code account = .ok s' →
      Store.get s'.referralCodes code = some account) ∧
    Referrals.register_code rcfg rs0 [97, 98, 99] 5 = .ok rsAbc ∧
    Referrals.register_code rcfg rsAbc [65, 66, 67] 9 = .ok rsUpper ∧
    Store.get rsUpper.referralCodes [97, 98, 99] = some 5 ∧
    Store.get rsUpper.referralCodes [65, 66, 67] = some 9 ∧
    ([97, 98, 99] : Referrals.Code) ≠ [65, 66, 67] := by
  refine ⟨?_, by rfl, by rfl, by rfl, by rfl, by decide⟩
  intro cfg s code account s' h
  obtain ⟨_, _, _, _, hs'⟩ := Referrals.register_code_ok_inv h
  subst hs'
  exact Store.get_put_self _ _ _

/-- C9 witness: the byte-for-byte storage conjunct applied to the
registration of "abc". -/
theorem C9_no_case_normalization_witness :
    Store.get rsAbc.referralCodes [97, 98, 99] = some 5 :=
  C9_no_case_normalization.1 rcfg rs0 [97, 98, 99] 5 rsAbc (by rfl)

/-- C10: the per-byte character validation accepts some non-ASCII bytes:
0xB5 (the micro sign, a Unicode lowercase letter under the byte-as-char
cast) lies outside [0-9A-Za-z] yet passes `char::is_alphanumeric`, and the
code made of three such bytes registers successfully. -/
theorem C10_non_ascii_byte_accepted :
    Referrals.char_is_alphanumeric 0xB5 = true ∧
    (¬ (0x30 ≤ (0xB5 : Nat) ∧ (0xB5 : Nat) ≤ 0x39)) ∧
    (¬ (0x41 ≤ (0xB5 : Nat) ∧ (0xB5 : Nat) ≤ 0x5A)) ∧
    (¬ (0x61 ≤ (0xB5 : Nat) ∧ (0xB5 : Nat) ≤ 0x7A)) ∧
    Referrals.register_code rcfg rs0 [0xB5, 0xB5, 0xB5] 7 = .ok rsMicro ∧
    Store.get rsMicro.referralCodes [0xB5, 0xB5, 0xB5] = some 7 :=
  ⟨rfl, by decide, by decide, by decide, by rfl, by rfl⟩

namespace Bonds

theorem protocol_fee_le {cfg : Config} (hwf : cfg.Wf) (r : Balance) :
    protocol_fee cfg r ≤ r := by
  obtain ⟨hden, hnum⟩ := hwf
  unfold protocol_fee
  calc (r * cfg.feeNum + (cfg.feeDen - 1)) / cfg.feeDen
      ≤ (cfg.feeDen * r + (cfg.feeDen - 1)) / cfg.feeDen := by
        apply Nat.div_le_div_right
        apply Nat.add_le_add_right
        calc r * cfg.feeNum ≤ r * cfg.feeDen := Nat.mul_le_mul_left r hnum
          _ = cfg.feeDen * r := Nat.mul_comm r cfg.feeDen
    _ = r + (cfg.feeDen - 1) / cfg.feeDen := Nat.mul_add_div hden r _
    _ = r := by
        rw [Nat.div_eq_of_lt (Nat.sub_lt hden Nat.one_pos), Nat.add_zero]

end Bonds

/-- C1: for every successful redeem of `requested`, the protocol fee is
the ceiling of `requested * ProtocolFeeRate`, the caller's ledger balance
grows by exactly `net_payout = requested - fee` (the returned value), and
the fee sink receives the fee; with a 1% rate, redeeming 100 gives fee 1
and payout 99, and redeeming 101 gives fee 2 and payout 99. -/
theorem C1_redeem_fee_and_payout (cfg : Bonds.Config) (now : Bonds.Moment)
    (s : Bonds.State) (caller bond_id : Nat)
    (requested net : Bonds.Balance) (s' : Bonds.State) (bond : Bonds.Bond)
    (hwf : cfg.Wf)
    (hbond : Store.get s.bonds bond_id = some bond)
    (h : Bonds.redeem cfg now s caller bond_id requested = .ok (net, s'))
    (hce : caller ≠ cfg.escrow) (hfe : cfg.feeSink ≠ cfg.escrow)
    (hcf : caller ≠ cfg.feeSink) :
    net = requested - Bonds.protocol_fee cfg requested ∧
    Bonds.protocol_fee cfg requested + net = requested ∧
    Bonds.getBalance s' bond.underlying_asset caller =
      Bonds.getBalance s bond.underlying_asset caller + net ∧
    Bonds.getBalance s' bond.underlying_asset cfg.feeSink =
      Bonds.getBalance s bond.underlying_asset cfg.feeSink +
        Bonds.protocol_fee cfg requested ∧
    (cfg.feeNum = 1 → cfg.feeDen = 100 →
      Bonds.protocol_fee cfg 100 = 1 ∧
      100 - Bonds.protocol_fee cfg 100 = 99 ∧
      Bonds.protocol_fee cfg 101 = 2 ∧
      101 - Bonds.protocol_fee cfg 101 = 99) := by
  obtain ⟨bond', s1, s2, hb', hmat, hpos, hle, hown, hnet, ht1, ht2, hbranch⟩ :=
    Bonds.redeem_ok_inv h
  have hbe : bond = bond' := by
    have := hbond.symm.trans hb'
    injection this
  subst hbe
  have hbal : s'.balances = s2.balances := by
    rcases hbranch with ⟨_, rfl⟩ | ⟨_, rfl⟩ <;> rfl
  have hsw : ∀ a x, Bonds.getBalance s' a x = Bonds.getBalance s2 a x := by
    intro a x
    unfold Bonds.getBalance
    rw [hbal]
  have hne1 : cfg.escrow ≠ caller := fun hh => hce hh.symm
  have hne2 : cfg.escrow ≠ cfg.feeSink := fun hh => hfe hh.symm
  have h1bal := Bonds.transfer_ok_balances ht1 hne1
  have h2bal := Bonds.transfer_ok_balances ht2 hne2
  have pne_ce : ((bond.underlying_asset, caller) : Nat × Nat) ≠
      (bond.underlying_asset, cfg.escrow) := by
    intro hh
    injection hh with _ h2
    exact hce h2
  have pne_cf : ((bond.underlying_asset, caller) : Nat × Nat) ≠
      (bond.underlying_asset, cfg.feeSink) := by
    intro hh
    injection hh with _ h2
    exact hcf h2
  have pne_fe : ((bond.underlying_asset, cfg.feeSink) : Nat × Nat) ≠
      (bond.underlying_asset, cfg.escrow) := by
    intro hh
    injection hh with _ h2
    exact hfe h2
  have pne_fc : ((bond.underlying_asset, cfg.feeSink) : Nat × Nat) ≠
      (bond.underlying_asset, caller) := by
    intro hh
    injection hh with _ h2
    exact hcf h2.symm
  refine ⟨hnet, ?_, ?_, ?_, ?_⟩
  · rw [hnet]
    exact Nat.add_sub_cancel' (Bonds.protocol_fee_le hwf requested)
  · rw [hsw, h2bal.2.2 bond.underlying_asset caller pne_ce pne_cf,
      h1bal.1, hnet]
  · rw [hsw, h2bal.1,
      h1bal.2.2 bond.underlying_asset cfg.feeSink pne_fe pne_fc]
  · intro h1 h2
    unfold Bonds.protocol_fee
    rw [h1, h2]
    norm_num

/-- C1 witness: account 5 redeems the whole of bond 0 (amount 100) from
`bst` at time 50 under the 1% fee configuration `bcfg`: payout 99,
fee 1. -/
theorem C1_redeem_fee_and_payout_witness :
    (99 : Bonds.Balance) = 100 - Bonds.protocol_fee bcfg 100 ∧
    Bonds.protocol_fee bcfg 100 + 99 = 100 ∧
    Bonds.getBalance bstAfterRedeem bond0.underlying_asset 5 =
      Bonds.getBalance bst bond0.underlying_asset 5 + 99 ∧
    Bonds.getBalance bstAfterRedeem bond0.underlying_asset bcfg.feeSink =
      Bonds.getBalance bst bond0.underlying_asset bcfg.feeSink +
        Bonds.protocol_fee bcfg 100 ∧
    (bcfg.feeNum = 1 → bcfg.feeDen = 100 →
      Bonds.protocol_fee bcfg 100 = 1 ∧
      100 - Bonds.protocol_fee bcfg 100 = 99 ∧
      Bonds.protocol_fee bcfg 101 = 2 ∧
      101 - Bonds.protocol_fee bcfg 101 = 99) :=
  C1_redeem_fee_and_payout bcfg 50 bst 5 0 100 99 bstAfterRedeem bond0
    (by decide) (by rfl) (by rfl) (by decide) (by decide) (by decide)

/-- C2 counterexample: with `bcfg.minMaturity = 1000`, issuing at time 0
with maturity exactly `now + MinMaturity = 1000` succeeds (as the issue
benchmark asserts), so the claim that equality fails with
`InvalidMaturity` is false. -/
theorem C2_equality_issue_succeeds :
    (1000 : Nat) = 0 + bcfg.minMaturity ∧
    Bonds.issue bcfg 0 bstEmpty 5 7 100 1000 = .ok (0, bstAfterIssue) ∧
    Bonds.issue bcfg 0 bstEmpty 5 7 100 1000 ≠
      .error Bonds.Error.InvalidMaturity := by
  have hok : Bonds.issue bcfg 0 bstEmpty 5 7 100 1000 =
      .ok (0, bstAfterIssue) := by rfl
  refine ⟨rfl, hok, ?_⟩
  intro h
  rw [h] at hok
  cases hok

/-- C2 (amended): `issue` fails with `InvalidMaturity` exactly when the
requested maturity is strictly below `now + MinMaturity`; at
`maturity = now + MinMaturity` the maturity check passes (the precondition
for success is the non-strict inequality). -/
theorem C2_invalid_maturity_iff (cfg : Bonds.Config) (now : Bonds.Moment)
    (s : Bonds.State) (caller asset : Nat) (amount : Bonds.Balance)
    (maturity : Bonds.Moment) :
    Bonds.issue cfg now s caller asset amount maturity =
        .error Bonds.Error.InvalidMaturity ↔
      maturity < now + cfg.minMaturity := by
  constructor
  · intro h
    by_contra hge
    unfold Bonds.issue at h
    rw [if_neg hge] at h
    by_cases h2 : amount = 0
    · rw [if_pos h2] at h
      injection h with h
      cases h
    · rw [if_neg h2] at h
      cases ht : Bonds.transfer s asset caller cfg.escrow amount with
      | error e =>
          rw [ht] at h
          simp only at h
          have he := Bonds.transfer_error_inv ht
          subst he
          injection h with h
          cases h
      | ok s1 =>
          rw [ht] at h
          simp only at h
          cases h
  · intro h
    unfold Bonds.issue
    rw [if_pos h]

/-- C2 witness: maturity 999 at time 0 is below the 1000 ms minimum lock
and is rejected with `InvalidMaturity`. -/
theorem C2_invalid_maturity_iff_witness :
    Bonds.issue bcfg 0 bstEmpty 5 7 100 999 =
      .error Bonds.Error.InvalidMaturity :=
  (C2_invalid_maturity_iff bcfg 0 bstEmpty 5 7 100 999).mpr (by decide)

/-- C3: every stored bond keeps a strictly positive amount across issue,
redeem and unlock, and a redeem of the bond's full remaining amount
deletes its registry record in the same call, so the drained `bond_id` no
longer resolves. -/
theorem C3_positive_amounts_and_drain (cfg : Bonds.Config) :
    (∀ now s caller asset amount maturity bid s',
      Bonds.AmountsPositive s →
      Bonds.issue cfg now s caller asset amount maturity = .ok (bid, s') →
      Bonds.AmountsPositive s') ∧
    (∀ now s caller bond_id requested net s',
      Bonds.AmountsPositive s →
      Bonds.redeem cfg now s caller bond_id requested = .ok (net, s') →
      Bonds.AmountsPositive s') ∧
    (∀ s now bond_id s',
      Bonds.AmountsPositive s →
      Bonds.unlock s now bond_id = .ok s' →
      Bonds.AmountsPositive s') ∧
    (∀ now s caller bond_id bond net s',
      Store.get s.bonds bond_id = some bond →
      Bonds.redeem cfg now s caller bond_id bond.amount = .ok (net, s') →
      Store.get s'.bonds bond_id = none) := by
  refine ⟨?_, ?_, ?_, ?_⟩
  · intro now s caller asset amount maturity bid s' hinv h
    obtain ⟨hmat, hamt, s1, ht, hbid, hs'⟩ := Bonds.issue_ok_inv h
    obtain ⟨_, hbonds, _, _, _⟩ := Bonds.transfer_ok_inv ht
    subst hs'
    intro id b hb
    dsimp only at hb
    by_cases hid : id = bid
    · subst hid
      rw [Store.get_put_self] at hb
      injection hb with hb
      rw [← hb]
      exact Nat.pos_of_ne_zero hamt
    · rw [Store.get_put_ne _ _ _ _ hid, hbonds] at hb
      exact hinv id b hb
  · intro now s caller bond_id requested net s' hinv h
    obtain ⟨bond, s1, s2, hb, hmat, hpos, hle, hown, hnet, ht1, ht2, hbr⟩ :=
      Bonds.redeem_ok_inv h
    obtain ⟨_, hbonds1, _, _, _⟩ := Bonds.transfer_ok_inv ht1
    obtain ⟨_, hbonds2, _, _, _⟩ := Bonds.transfer_ok_inv ht2
    have hb2 : s2.bonds = s.bonds := by rw [hbonds2, hbonds1]
    rcases hbr with ⟨heq, hs'⟩ | ⟨hlt, hs'⟩
    · subst hs'
      intro id b hbb
      dsimp only at hbb
      by_cases hid : id = bond_id
      · subst hid
        rw [Store.get_del_self] at hbb
        cases hbb
      · rw [Store.get_del_ne _ _ _ hid, hb2] at hbb
        exact hinv id b hbb
    · subst hs'
      intro id b hbb
      dsimp only at hbb
      by_cases hid : id = bond_id
      · subst hid
        rw [Store.get_put_self] at hbb
        injection hbb with hbb
        rw [← hbb]
        exact Nat.sub_pos_of_lt hlt
      · rw [Store.get_put_ne _ _ _ _ hid, hb2] at hbb
        exact hinv id b hbb
  · intro s now bond_id s' hinv h
    obtain ⟨b0, hb0, hs'⟩ := Bonds.unlock_ok_inv h
    subst hs'
    intro id b hbb
    dsimp only at hbb
    by_cases hid : id = bond_id
    · subst hid
      rw [Store.get_mapAt_self, hb0] at hbb
      injection hbb with hbb
      rw [← hbb]
      exact hinv id b0 hb0
    · rw [Store.get_mapAt_ne _ _ _ _ hid] at hbb
      exact hinv id b hbb
  · intro now s caller bond_id bond net s' hbond h
    obtain ⟨bond', s1, s2, hb', hmat, hpos, hle, hown, hnet, ht1, ht2, hbr⟩ :=
      Bonds.redeem_ok_inv h
    have hbe : bond = bond' := by
      have hsame := hbond.symm.trans hb'
      injection hsame
    subst hbe
    rcases hbr with ⟨heq, hs'⟩ | ⟨hlt, hs'⟩
    · subst hs'
      dsimp only
      exact Store.get_del_self _ _
    · exact absurd hlt (lt_irrefl _)

/-- C3 witness: fully draining bond 0 of `bst` (amount 100) at time 50
leaves no registry entry for id 0. -/
theorem C3_positive_amounts_and_drain_witness :
    Store.get bstAfterRedeem.bonds 0 = none :=
  (C3_positive_amounts_and_drain bcfg).2.2.2 50 bst 5 0 bond0 99
    bstAfterRedeem (by rfl) (by rfl)

/-- C4: redeeming any existing bond strictly before its maturity fails
with `NotMatured`, and the observed post-call state is the unchanged
pre-state (registry and all ledger balances included). -/
theorem C4_no_early_redemption (cfg : Bonds.Config) (now : Bonds.Moment)
    (s : Bonds.State) (caller bond_id : Nat) (requested : Bonds.Balance)
    (bond : Bonds.Bond)
    (hbond : Store.get s.bonds bond_id = some bond)
    (hnow : now < bond.maturity) :
    Bonds.redeem cfg now s caller bond_id requested =
      .error Bonds.Error.NotMatured ∧
    Bonds.redeem_run cfg now s caller bond_id requested = s := by
  have hred : Bonds.redeem cfg now s caller bond_id requested =
      .error Bonds.Error.NotMatured := by
    unfold Bonds.redeem
    rw [hbond]
    simp only
    rw [if_pos hnow]
  refine ⟨hred, ?_⟩
  unfold Bonds.redeem_run
  rw [hred]

/-- C4 witness: bond 0 of `bst` matures at 50; redeeming at time 40
fails `NotMatured` and the state is untouched. -/
theorem C4_no_early_redemption_witness :
    Bonds.redeem bcfg 40 bst 5 0 100 = .error Bonds.Error.NotMatured ∧
    Bonds.redeem_run bcfg 40 bst 5 0 100 = bst :=
  C4_no_early_redemption bcfg 40 bst 5 0 100 bond0 (by rfl) (by decide)

/-- C5: a successful `unlock` rewrites the bond's maturity to the current
time and changes nothing else: the bond's amount and underlying asset are
untouched, every other registry entry is untouched, and no ledger balance
moves. -/
theorem C5_unlock_frame (s : Bonds.State) (now : Bonds.Moment)
    (bond_id : Nat) (bond : Bonds.Bond) (s' : Bonds.State)
    (hbond : Store.get s.bonds bond_id = some bond)
    (h : Bonds.unlock s now bond_id = .ok s') :
    Store.get s'.bonds bond_id = some { bond with maturity := now } ∧
    (∀ id', id' ≠ bond_id → Store.get s'.bonds id' = Store.get s.bonds id') ∧
    s'.balances = s.balances ∧ s'.owners = s.owners ∧
    s'.nextBondId = s.nextBondId := by
  obtain ⟨b0, hb0, hs'⟩ := Bonds.unlock_ok_inv h
  subst hs'
  refine ⟨?_, ?_, rfl, rfl, rfl⟩
  · dsimp only
    rw [Store.get_mapAt_self, hbond]
    rfl
  · intro id' hne
    dsimp only
    rw [Store.get_mapAt_ne _ _ _ _ hne]

/-- C5 witness: unlocking bond 0 of `bst` at time 60 rewrites its
maturity to 60 and leaves amount, asset, other entries and balances
alone. -/
theorem C5_unlock_frame_witness :
    Store.get bstAfterUnlock.bonds 0 = some { bond0 with maturity := 60 } ∧
    (∀ id', id' ≠ 0 →
      Store.get bstAfterUnlock.bonds id' = Store.get bst.bonds id') ∧
    bstAfterUnlock.balances = bst.balances ∧
    bstAfterUnlock.owners = bst.owners ∧
    bstAfterUnlock.nextBondId = bst.nextBondId :=
  C5_unlock_frame bst 60 0 bond0 bstAfterUnlock (by rfl) (by rfl)
